import Mathlib

/-!
Verification of the Backup Artifact Lifecycle Engine of
docker-volume-google-drive-backup (src/backup.go).

The Go functions relevant to the claims are shallowly embedded as Lean
functions over `List Char` / `String`, `Nat` and `Int`:

* `parseSizeString`  — backup.go `parseSizeString` (size-unit parser);
* `splitFile`        — backup.go `splitFile` (artifact partitioner), with the
  file contents abstracted to a byte count (the function only ever decides on
  byte counts);
* `uploadToDrive`    — backup.go `uploadToDrive` (upload coordinator), with
  the remote store abstracted to an oracle giving the outcome of the i-th
  create call, and the remote calls recorded in an explicit trace;
* `cleanupOldBackups`— backup.go `cleanupOldBackups` (retention sweeper),
  with the listing result and the outcome of each delete call abstracted to
  inputs, and delete attempts recorded in an explicit trace;
* `parseRFC3339`     — Go `time.Parse(time.RFC3339, ·)` restricted to what
  the sweeper needs: the parsed absolute instant (in nanoseconds since the
  Unix epoch) or a failure.
-/

namespace GDriveBackup

/-! ### Character and string helpers (ASCII fragment of the Go stdlib) -/

/-- ASCII lower-casing of one character, as `strings.ToLower` acts on the
ASCII range (the artifacts' names and size strings are ASCII). -/
def asciiToLower (c : Char) : Char :=
  if 65 ≤ c.toNat && c.toNat ≤ 90 then Char.ofNat (c.toNat + 32) else c

/-- `strings.ToLower` on the ASCII fragment. -/
def lowerStr (s : List Char) : List Char := s.map asciiToLower

/-- The white-space characters of `unicode.IsSpace` (Latin-1 range), used
by `strings.TrimSpace`: space, tab, newline, vertical tab, form feed,
carriage return, next line, no-break space. -/
def isSpaceChar (c : Char) : Bool :=
  c.toNat == 32 || c.toNat == 9 || c.toNat == 10 || c.toNat == 11 || c.toNat == 12 ||
  c.toNat == 13 || c.toNat == 133 || c.toNat == 160

/-- The characters matched by the RE2 character class `\s`:
tab, newline, form feed, carriage return, space. -/
def isRegexSpace (c : Char) : Bool :=
  c.toNat == 9 || c.toNat == 10 || c.toNat == 12 || c.toNat == 13 || c.toNat == 32

/-- `strings.TrimSpace`. -/
def trimSpace (s : List Char) : List Char :=
  ((s.dropWhile isSpaceChar).reverse.dropWhile isSpaceChar).reverse

/-- Numeric value of a list of decimal digit characters (most significant
first), as consumed by `strconv`. -/
def natOfDigits (ds : List Char) : Nat :=
  ds.foldl (fun acc c => acc * 10 + (c.toNat - 48)) 0

/-- The decimal digits, the character class of both `regexp`'s `\d` and the
digit positions of the `time` layouts. -/
def isDigitChar (c : Char) : Bool :=
  48 ≤ c.toNat && c.toNat ≤ 57

/-! ### Size-unit parser: backup.go `parseSizeString` -/

/-- The multiplier table of `parseSizeString`; the five alternatives of the
second capture group of the regex, with their byte multipliers. -/
def unitMult : List Char → Option Nat
  | ['b'] => some 1
  | ['k', 'b'] => some 1024
  | ['m', 'b'] => some (1024 * 1024)
  | ['g', 'b'] => some (1024 * 1024 * 1024)
  | ['t', 'b'] => some (1024 * 1024 * 1024 * 1024)
  | _ => none

/-- Match of the anchored regex of `parseSizeString`,
with pattern d+ then optionally a dot and d+ then s* then a unit,
anchored at both ends.  Returns the integer digits, the fraction digits
(empty when absent) and the unit's multiplier.  The regex is deterministic
on its matches: the digit runs and the space run are maximal. -/
def matchSize (s : List Char) : Option (List Char × List Char × Nat) :=
  let ds := s.takeWhile isDigitChar
  let rest := s.drop ds.length
  if ds.isEmpty then none
  else if rest.head? = some '.' then
    let fs := rest.tail.takeWhile isDigitChar
    let rest3 := rest.tail.drop fs.length
    if fs.isEmpty then none
    else (unitMult (rest3.dropWhile isRegexSpace)).map (fun m => (ds, fs, m))
  else (unitMult (rest.dropWhile isRegexSpace)).map (fun m => (ds, [], m))

/-- Numeric evaluation of a regex match: digits times unit multiplier,
truncated to an integer byte count, a 0 result rejected (the
`result <= 0` error branch).  The evaluation is modelled exactly (the Go
code computes `int64(value * multiplier)` in `float64`; for inputs whose
value and product are exactly representable — in particular every input
appearing in the claims — the two agree). -/
def sizeOfMatch : Option (List Char × List Char × Nat) → Option Nat
  | none => none
  | some (ds, fs, mult) =>
      let result := natOfDigits (ds ++ fs) * mult / 10 ^ fs.length
      if result = 0 then none else some result

/-- backup.go `parseSizeString`: trim surrounding white space, lower-case,
match the size regex, and evaluate the match.  `none` stands for the error
returns. -/
def parseSizeString (s : String) : Option Nat :=
  sizeOfMatch (matchSize (trimSpace (lowerStr s.data)))

/-! ### RFC3339 timestamps: Go `time.Parse(time.RFC3339, s)`

The sweeper parses the remote creation timestamps with layout
`2006-01-02T15:04:05Z07:00`: four-digit year, two-digit month/day,
a literal `T`, two-digit hour/minute/second, an optional fraction of a
second, and an offset that is either `Z` or a signed `hh:mm`.  Go validates
the calendar ranges (month 1–12, day within the month, hour < 24,
minute < 60, second < 60).  The result is modelled as the absolute instant
in nanoseconds since the Unix epoch (Go compares parsed `time.Time` values
by exactly that instant). -/

/-- Numeric value of one decimal digit character. -/
def digitVal (c : Char) : Nat := c.toNat - 48

/-- Read exactly two decimal digits. -/
def read2 : List Char → Option (Nat × List Char)
  | a :: b :: rest =>
      if isDigitChar a && isDigitChar b then some (digitVal a * 10 + digitVal b, rest)
      else none
  | _ => none

/-- Read exactly four decimal digits. -/
def read4 : List Char → Option (Nat × List Char)
  | a :: b :: c :: d :: rest =>
      if isDigitChar a && isDigitChar b && isDigitChar c && isDigitChar d then
        some (((digitVal a * 10 + digitVal b) * 10 + digitVal c) * 10 + digitVal d, rest)
      else none
  | _ => none

/-- Require one literal character. -/
def expectChar (c : Char) : List Char → Option (List Char)
  | x :: rest => if x = c then some rest else none
  | _ => none

/-- Optional fractional second, as nanoseconds (at most nine digits, as Go
accepts). -/
def parseFrac : List Char → Option (Nat × List Char)
  | '.' :: rest =>
      let ds := rest.takeWhile isDigitChar
      if ds.isEmpty || decide (9 < ds.length) then none
      else some (natOfDigits ds * 10 ^ (9 - ds.length), rest.drop ds.length)
  | l => some (0, l)

/-- UTC offset: `Z`, or a sign followed by `hh:mm`; result in seconds east
of UTC.  Must consume the rest of the input (the layout ends there). -/
def parseOffset : List Char → Option Int
  | ['Z'] => some 0
  | s :: rest =>
      if s = '+' || s = '-' then
        match read2 rest with
        | some (oh, ':' :: rest2) =>
            match read2 rest2 with
            | some (om, []) =>
                let mag : Int := oh * 3600 + om * 60
                some (if s = '+' then mag else -mag)
            | _ => none
        | _ => none
      else none
  | _ => none

/-- Go `isLeap`. -/
def isLeap (y : Nat) : Bool :=
  (y % 4 == 0 && y % 100 != 0) || y % 400 == 0

/-- Length of a month in the proleptic Gregorian calendar. -/
def daysInMonth (y m : Nat) : Nat :=
  match m with
  | 1 => 31 | 2 => if isLeap y then 29 else 28 | 3 => 31 | 4 => 30
  | 5 => 31 | 6 => 30 | 7 => 31 | 8 => 31
  | 9 => 30 | 10 => 31 | 11 => 30 | 12 => 31
  | _ => 0

/-- Days of year `y` that precede month `m`. -/
def daysBeforeMonth (y m : Nat) : Nat :=
  (match m with
   | 1 => 0 | 2 => 31 | 3 => 59 | 4 => 90 | 5 => 120 | 6 => 151 | 7 => 181
   | 8 => 212 | 9 => 243 | 10 => 273 | 11 => 304 | 12 => 334 | _ => 0) +
  (if isLeap y && decide (3 ≤ m) then 1 else 0)

/-- Days from 0001-01-01 to the given proleptic-Gregorian date (the date's
ordinal minus one). -/
def daysFromYear1 (y m d : Nat) : Int :=
  365 * ((y : Int) - 1) + Int.fdiv ((y : Int) - 1) 4 - Int.fdiv ((y : Int) - 1) 100 +
    Int.fdiv ((y : Int) - 1) 400 + daysBeforeMonth y m + (d - 1 : Nat)

/-- Days from 0001-01-01 to 1970-01-01. -/
def epochDays : Int := 719162

/-- Go `time.Parse(time.RFC3339, s)`, reduced to the instant it denotes:
nanoseconds since the Unix epoch, or `none` on a parse error. -/
def parseRFC3339 (s : String) : Option Int :=
  match read4 s.data with
  | none => none
  | some (y, r1) =>
    match expectChar '-' r1 with
    | none => none
    | some r2 =>
      match read2 r2 with
      | none => none
      | some (mo, r3) =>
        match expectChar '-' r3 with
        | none => none
        | some r4 =>
          match read2 r4 with
          | none => none
          | some (d, r5) =>
            match expectChar 'T' r5 with
            | none => none
            | some r6 =>
              match read2 r6 with
              | none => none
              | some (hh, r7) =>
                match expectChar ':' r7 with
                | none => none
                | some r8 =>
                  match read2 r8 with
                  | none => none
                  | some (mi, r9) =>
                    match expectChar ':' r9 with
                    | none => none
                    | some r10 =>
                      match read2 r10 with
                      | none => none
                      | some (ss, r11) =>
                        match parseFrac r11 with
                        | none => none
                        | some (nanos, r12) =>
                          match parseOffset r12 with
                          | none => none
                          | some offset =>
                            if mo < 1 || 12 < mo || d < 1 || daysInMonth y mo < d ||
                                23 < hh || 59 < mi || 59 < ss then none
                            else
                              some ((((daysFromYear1 y mo d - epochDays) * 86400 +
                                (hh * 3600 + mi * 60 + ss : Nat)) - offset) * 1000000000 + nanos)

/-! ### Artifact partitioner: backup.go `splitFile`

The loop copies `splitSize` bytes (or whatever remains) per iteration into
`<baseName>.partNNN`, appends the chunk to the result only when it received
at least one byte (an empty chunk file is removed instead), and stops as
soon as a copy came up short.  Only the byte counts decide anything, so the
input file is abstracted to its size.  The loop is not structurally
recursive; it is embedded with a fuel argument, and `size + 1` fuel is
exact: every non-final iteration consumes `splitSize ≥ 1` bytes. -/

/-- Decimal digits of `n`, most significant first. -/
def natDigits (n : Nat) : List Char := Nat.toDigits 10 n

/-- Go `%03d`: decimal representation left-padded with zeros to width 3. -/
def pad3 (n : Nat) : List Char :=
  List.replicate (3 - (natDigits n).length) '0' ++ natDigits n

/-- The name `fmt.Sprintf` gives the chunk of number `chunkNum`
(the base of the chunk path; the directory part plays no further role, the
coordinator takes `filepath.Base` right back). -/
def chunkName (baseName : String) (chunkNum : Nat) : String :=
  baseName ++ ".part" ++ ⟨pad3 chunkNum⟩

/-- One iteration of the `splitFile` loop per fuel unit: `rem` bytes remain,
the next chunk is number `chunkNum`.  `bw` is the `io.CopyN` byte count. -/
def splitGo (baseName : String) (splitSize : Nat) : Nat → Nat → Nat → List (String × Nat)
  | 0, _, _ => []
  | fuel + 1, rem, chunkNum =>
      let bw := min splitSize rem
      let emitted : List (String × Nat) :=
        if 0 < bw then [(chunkName baseName chunkNum, bw)] else []
      if bw < splitSize then emitted
      else emitted ++ splitGo baseName splitSize fuel (rem - splitSize) (chunkNum + 1)

/-- backup.go `splitFile` on a file of `size` bytes: the ordered list of
produced chunks as (name, byte count) pairs, starting at chunk 001. -/
def splitFile (baseName : String) (size splitSize : Nat) : List (String × Nat) :=
  splitGo baseName splitSize (size + 1) size 1

/-! ### Upload coordinator: backup.go `uploadToDrive`

The remote store is abstracted by an oracle mapping the index of a
`Files.Create` call to its outcome (the created file's identifier, or an
error message), and every remote call the coordinator issues is recorded in
a trace.  The local filesystem details (paths under the temp dir, removal
of local chunk files after their upload) do not affect any claim and are
dropped; the uploaded names are exactly the chunk base names, as
`filepath.Base` recovers them from the chunk paths. -/

/-- Go `filepath.Ext`: the suffix of the name from, and including, its last
dot; empty when there is no dot (scanning stops at a path separator). -/
def goExtRev : List Char → List Char → List Char
  | [], _ => []
  | c :: rest, acc =>
      if c = '/' then []
      else if c = '.' then c :: acc
      else goExtRev rest (c :: acc)

/-- Go `filepath.Ext` on the characters of a name. -/
def goExt (s : List Char) : List Char := goExtRev s.reverse []

/-- Go `strings.TrimSuffix`. -/
def trimSuffix (s suffix : List Char) : List Char :=
  if suffix.isSuffixOf s then s.take (s.length - suffix.length) else s

deriving instance DecidableEq for Except

/-- A remote call of the Drive client, with its outcome. -/
inductive DriveOp where
  | createOp (name : String) (result : Except String String)
  | deleteOp (id : String) (ok : Bool)
  deriving DecidableEq

/-- The name a `createOp` uploaded. -/
def DriveOp.name? : DriveOp → Option String
  | .createOp n _ => some n
  | .deleteOp _ _ => none

/-- The identifier a successful `createOp` returned. -/
def DriveOp.created? : DriveOp → Option String
  | .createOp _ (.ok id) => some id
  | _ => none

/-- Whether an op is a delete call. -/
def DriveOp.isDelete : DriveOp → Bool
  | .deleteOp _ _ => true
  | _ => false

/-- The error return of `uploadToDrive`:
a `fmt.Errorf` wrapping that names the failing part. -/
structure UploadError where
  partName : String
  cause : String
  deriving DecidableEq

/-- The per-part loop of `uploadToDrive`: upload each name in order; on the
first failing create, return the wrapped error; otherwise accumulate the
returned identifiers in order.  `i` is the index of the next create call. -/
def uploadLoop (oracle : Nat → Except String String) :
    List String → Nat → List DriveOp × Except UploadError (List String)
  | [], _ => ([], .ok [])
  | name :: rest, i =>
      match oracle i with
      | .error e => ([.createOp name (.error e)], .error ⟨name, e⟩)
      | .ok id =>
          let r := uploadLoop oracle rest (i + 1)
          (.createOp name (.ok id) :: r.1, r.2.map (fun ids => id :: ids))

/-- The list of names `uploadToDrive` decides to upload: the chunk names
when a positive split size is configured and the file strictly exceeds it,
else the single original logical name. -/
def uploadPlan (fileName : String) (size splitSize : Nat) : List String :=
  if 0 < splitSize ∧ splitSize < size then
    (splitFile (⟨trimSuffix fileName.data (goExt fileName.data)⟩) size splitSize).map Prod.fst
  else [fileName]

/-- backup.go `uploadToDrive` on a file of `size` bytes with logical name
`fileName` and configured split size `splitSize` (`0` = splitting
disabled): the trace of remote calls, and the returned (first) identifier
or error.  `uploadedFileIDs[0]` on an empty id list would be a Go panic;
that case is marked by an error (and proven unreachable below). -/
def uploadToDrive (oracle : Nat → Except String String) (fileName : String)
    (size splitSize : Nat) : List DriveOp × Except UploadError String :=
  let r := uploadLoop oracle (uploadPlan fileName size splitSize) 0
  (r.1, r.2.bind (fun ids =>
    match ids with
    | [] => .error ⟨"", "panic: index out of range"⟩
    | id :: _ => .ok id))

/-! ### Retention sweeper: backup.go `cleanupOldBackups`

The listing result of the Drive query is an input (`Except` for the only
error path of the function); the outcome of each `Files.Delete` call is
given by an oracle keyed on the file identifier, since a delete error is
only logged.  `time.Now()` is the `now` input, an instant in nanoseconds;
`cutoff = now.AddDate(0, 0, -retentionDays)` subtracts whole days (exact in
a fixed-offset zone, which is the setting of the spec's retention
examples).  Go iterates the group map in unspecified order; the model fixes
the order of first occurrence of each group key, which no claim depends
on. -/

/-- The fields the sweeper reads from a listed remote file
(backup.go's local `fileInfo` struct). -/
structure DriveFile where
  id : String
  name : String
  created : String
  deriving DecidableEq

/-- Nanoseconds per day. -/
def nanosPerDay : Int := 86400 * 1000000000

/-- The sweeper's cutoff instant: `time.Now().AddDate(0, 0, -retentionDays)`. -/
def cutoffOf (now : Int) (retentionDays : Nat) : Int :=
  now - retentionDays * nanosPerDay

/-- Go `strings.Index`: the position of the first occurrence of `pat` in
`s`, if any. -/
def indexOfSub (s pat : List Char) : Option Nat :=
  (List.range (s.length + 1)).find? (fun i => pat.isPrefixOf (s.drop i))

/-- The group key of a listed name: everything before the first occurrence
of `.tar.gz`, else everything before the first occurrence of `.tar.part`,
else the whole name (the `strings.Index` based stripping of the sweeper). -/
def groupKeyChars (name : List Char) : List Char :=
  match indexOfSub name ".tar.gz".data with
  | some i => name.take i
  | none =>
      match indexOfSub name ".tar.part".data with
      | some i => name.take i
      | none => name

/-- The group key of a listed name. -/
def groupKey (name : String) : String := ⟨groupKeyChars name.data⟩

/-- The keys of the groups built from the listing, in order of first
occurrence (the map insertion order; Go's iteration order over the map is
unspecified and no claim depends on it). -/
def groupKeys (files : List DriveFile) : List String :=
  (files.map (fun f => groupKey f.name)).eraseDups

/-- The members of the group of key `p`, in listing order (the order the
sweeper appended them to the map entry). -/
def membersOf (files : List DriveFile) (p : String) : List DriveFile :=
  files.filter (fun f => groupKey f.name == p)

/-- Go `<` on strings: lexicographic comparison (byte-wise in Go; on the
ASCII timestamps at hand, byte order and code-point order coincide). -/
def strLtChars : List Char → List Char → Bool
  | [], [] => false
  | [], _ :: _ => true
  | _ :: _, [] => false
  | a :: as, b :: bs =>
      if a.toNat < b.toNat then true
      else if b.toNat < a.toNat then false
      else strLtChars as bs

/-- Go `<` on strings. -/
def strLt (a b : String) : Bool := strLtChars a.data b.data

/-- One step of the sweeper's scan for the earliest member: replace the
candidate whenever the next member's created STRING is strictly smaller
under Go's string order. -/
def earliestStep (e fi : DriveFile) : DriveFile :=
  if strLt fi.created e.created then fi else e

/-- The `for range` scan for the earliest member: start from the first
member and fold the replacement step over the whole group (the loop also
visits `group[0]` itself; comparing it with itself changes nothing). -/
def pickEarliest (first : DriveFile) (rest : List DriveFile) : DriveFile :=
  (first :: rest).foldl earliestStep first

/-- The creation time the sweeper uses for a group: the RFC3339 parse of
the scan winner's created string; `none` when the group is empty (the
`len(group) == 0` guard) or the parse fails. -/
def groupTime (g : List DriveFile) : Option Int :=
  match g with
  | [] => none
  | first :: rest => parseRFC3339 (pickEarliest first rest).created

/-- The sweeper's deletion decision for one group:
`retentionDays == 0 || created.Before(cutoff)`; a group whose time cannot
be determined is skipped (`continue`). -/
def groupDecision (now : Int) (retentionDays : Nat) (g : List DriveFile) : Bool :=
  match groupTime g with
  | none => false
  | some created => retentionDays == 0 || decide (created < cutoffOf now retentionDays)

/-- The members the sweeper attempts to delete out of one group: all of
them when the group is decided old, none otherwise. -/
def groupAttempts (now : Int) (retentionDays : Nat) (g : List DriveFile) : List DriveFile :=
  if groupDecision now retentionDays g then g else []

/-- All delete attempts of one sweep over a successful listing, in group
order. -/
def cleanupAttempts (now : Int) (retentionDays : Nat) (files : List DriveFile) : List DriveFile :=
  (groupKeys files).flatMap (fun p => groupAttempts now retentionDays (membersOf files p))

/-- backup.go `cleanupOldBackups`: on a listing error, return the wrapped
error and do nothing; otherwise attempt to delete every member of every
group decided old — each attempt's outcome comes from `delOk` and is only
logged — and return `nil`. -/
def cleanupOldBackups (listRes : Except String (List DriveFile)) (now : Int)
    (retentionDays : Nat) (delOk : String → Bool) :
    Except String Unit × List DriveOp :=
  match listRes with
  | .error e => (.error ("listing files: " ++ e), [])
  | .ok files =>
      (.ok (), (cleanupAttempts now retentionDays files).map (fun f => .deleteOp f.id (delOk f.id)))

/-! ### The shape of `splitFile`'s output -/

/-- The number of chunks `splitFile` emits for `rem` remaining bytes. -/
def partCount (splitSize rem : Nat) : Nat :=
  if rem % splitSize = 0 then rem / splitSize else rem / splitSize + 1

/-- The byte count of the chunk of index `i` (0-based) for `rem` remaining
bytes. -/
def partSize (splitSize rem i : Nat) : Nat :=
  min splitSize (rem - i * splitSize)

/-- C4's conclusion for base name `b`, archive size `S`, split size `C`:
the part count is `ceil(S/C)` (which is `S/C` exactly when `C` divides
`S`), every part but the last has size exactly `C`, the last part's size is
positive and at most `C`, and no part is empty. -/
def SplitShapeClaim (b : String) (S C : Nat) : Prop :=
  ((splitFile b S C).length = if S % C = 0 then S / C else S / C + 1) ∧
  (∀ i x, (splitFile b S C)[i]? = some x → i + 1 < (splitFile b S C).length → x.2 = C) ∧
  (∀ x, (splitFile b S C).getLast? = some x → 0 < x.2 ∧ x.2 ≤ C) ∧
  (∀ x ∈ splitFile b S C, x.2 ≠ 0)

/-! ### What the coordinator returns (claim C1) and how it fails (claim C7) -/

/-- The identifier list the coordinator's return value carries: the single
returned identifier on success, nothing on error. -/
def returnedIds : Except UploadError String → List String
  | .ok id => [id]
  | .error _ => []

/-- The identifiers returned by the store's create calls of a trace, in
call order. -/
def createdIds (tr : List DriveOp) : List String :=
  tr.filterMap DriveOp.created?

/-- The claim's comparator, stated from the claim's words for comparison
with the code's `groupTime`: the earliest absolute instant obtained by
parsing each member's RFC3339 timestamp. -/
def claimEarliestInstant (g : List DriveFile) : Option Int :=
  match g.filterMap (fun f => parseRFC3339 f.created) with
  | [] => none
  | t :: ts => some (ts.foldl min t)

/-- Two artifacts of one group whose timestamps carry different UTC
offsets: member B was created first in absolute time, but member A's
timestamp string is lexicographically smaller. -/
def fileLexA : DriveFile := ⟨"idA", "f_x.tar.gz.part001", "2025-01-01T05:00:00Z"⟩

/-- See `fileLexA`. -/
def fileLexB : DriveFile := ⟨"idB", "f_x.tar.gz.part002", "2025-01-01T10:00:00+09:00"⟩

/-! ### Independent best-effort deletion (claim C8) -/

/-- The file identifier a delete call targeted. -/
def DriveOp.deleteId? : DriveOp → Option String
  | .deleteOp id _ => some id
  | _ => none

/-! ### Case- and space-invariance of the size parser (claim C9) -/

/-- The shape of the first capture group of the size regex:
one or more digits, optionally followed by a dot and one or more digits. -/
def NumShape (num : List Char) : Prop :=
  (num ≠ [] ∧ ∀ c ∈ num, isDigitChar c = true) ∨
  (∃ ds fs, ds ≠ [] ∧ (∀ c ∈ ds, isDigitChar c = true) ∧ fs ≠ [] ∧
    (∀ c ∈ fs, isDigitChar c = true) ∧ num = ds ++ '.' :: fs)

/-! ## Theorems -/

example : parseSizeString "100MB" = some 104857600 := by decide

example : parseSizeString "100mb" = some 104857600 := by decide

example : parseSizeString "100 mb" = some 104857600 := by decide

example : parseSizeString "1.5kb" = some 1536 := by decide

example : parseSizeString "0b" = none := by decide

example : parseSizeString "10xb" = none := by decide

example : parseSizeString " 10kb " = some 10240 := by decide

example : parseRFC3339 "1970-01-01T00:00:00Z" = some 0 := by decide

example : parseRFC3339 "1970-01-02T00:00:00Z" = some 86400000000000 := by decide

example : parseRFC3339 "1969-12-31T23:59:59Z" = some (-1000000000) := by decide

example : parseRFC3339 "2025-01-01T00:00:00Z" = some 1735689600000000000 := by decide

example : parseRFC3339 "2025-01-01T00:00:00.5Z" = some 1735689600500000000 := by decide

example : parseRFC3339 "2025-01-01T03:00:00+03:00" = some 1735689600000000000 := by decide

example : parseRFC3339 "2025-02-29T00:00:00Z" = none := by decide

example : parseRFC3339 "2024-02-29T00:00:00Z" = some 1709164800000000000 := by decide

example : parseRFC3339 "not-a-time" = none := by decide

example : parseRFC3339 "2025-01-01T00:00:00" = none := by decide

example : splitFile "a.tar" 5 2 = [("a.tar.part001", 2), ("a.tar.part002", 2), ("a.tar.part003", 1)] := by decide

example : splitFile "a.tar" 4 2 = [("a.tar.part001", 2), ("a.tar.part002", 2)] := by decide

example : splitFile "a.tar" 2 3 = [("a.tar.part001", 2)] := by decide

example : splitFile "a.tar" 0 3 = [] := by decide

example : (⟨goExt "f_x.tar.gz".data⟩ : String) = ".gz" := by decide

example : (⟨trimSuffix "f_x.tar.gz".data (goExt "f_x.tar.gz".data)⟩ : String) = "f_x.tar" := by decide

example : (⟨goExt "plain".data⟩ : String) = "" := by decide

example :
    uploadToDrive (fun i => .ok (toString i)) "f_x.tar.gz" 5 2 =
      ([.createOp "f_x.tar.part001" (.ok "0"), .createOp "f_x.tar.part002" (.ok "1"),
        .createOp "f_x.tar.part003" (.ok "2")], .ok "0") := by decide

example :
    uploadToDrive (fun i => .ok (toString i)) "f_x.tar.gz" 5 0 =
      ([.createOp "f_x.tar.gz" (.ok "0")], .ok "0") := by decide

example : groupKey "f_2025.tar.gz" = "f_2025" := by decide

example : groupKey "f_2025.tar.gz.part001" = "f_2025" := by decide

example : groupKey "f_2025.tar.part001" = "f_2025" := by decide

example : groupKey "other" = "other" := by decide

example :
    cleanupOldBackups (.ok [⟨"i1", "f_a.tar.gz", "2025-01-01T00:00:00Z"⟩]) 1735689600000000000 0
      (fun _ => true) = (.ok (), [.deleteOp "i1" true]) := by decide

example :
    cleanupOldBackups (.ok [⟨"i1", "f_a.tar.gz", "2025-01-01T00:00:00Z"⟩]) 1735689600000000000 30
      (fun _ => true) = (.ok (), []) := by decide

theorem splitGo_zero (b : String) (C fuel k : Nat) (hC : 0 < C) :
    splitGo b C (fuel + 1) 0 k = [] := by
  simp [splitGo, hC]

theorem splitGo_small (b : String) (C fuel rem k : Nat) (h0 : 0 < rem) (h1 : rem < C) :
    splitGo b C (fuel + 1) rem k = [(chunkName b k, rem)] := by
  have hmin : min C rem = rem := Nat.min_eq_right (Nat.le_of_lt h1)
  simp [splitGo, hmin, h0, h1]

theorem splitGo_large (b : String) (C fuel rem k : Nat) (hC : 0 < C) (h : C ≤ rem) :
    splitGo b C (fuel + 1) rem k =
      (chunkName b k, C) :: splitGo b C fuel (rem - C) (k + 1) := by
  have hmin : min C rem = C := Nat.min_eq_left h
  simp [splitGo, hmin, hC]

theorem splitGo_closed (b : String) (C : Nat) (hC : 0 < C) :
    ∀ fuel rem k, rem < fuel →
      splitGo b C fuel rem k =
        (List.range (partCount C rem)).map (fun i => (chunkName b (k + i), partSize C rem i)) := by
  intro fuel
  induction fuel with
  | zero => intro rem k h; omega
  | succ fuel ih =>
      intro rem k h
      rcases Nat.lt_or_ge rem C with hsmall | hlarge
      · rcases Nat.eq_zero_or_pos rem with h0 | h0
        · subst h0
          simp [splitGo_zero b C fuel k hC, partCount]
        · have hmod : rem % C = rem := Nat.mod_eq_of_lt hsmall
          have hdiv : rem / C = 0 := Nat.div_eq_of_lt hsmall
          have hcount : partCount C rem = 1 := by
            unfold partCount
            rw [hmod, hdiv]
            split <;> omega
          rw [splitGo_small b C fuel rem k h0 hsmall, hcount]
          simp [List.range_succ, partSize, Nat.min_eq_right (Nat.le_of_lt hsmall)]
      · have hrec : rem - C < fuel := by omega
        rw [splitGo_large b C fuel rem k hC hlarge, ih (rem - C) (k + 1) hrec]
        have hsub : rem - C + C = rem := Nat.sub_add_cancel hlarge
        have hmod : rem % C = (rem - C) % C := by
          conv_lhs => rw [← hsub]
          rw [Nat.add_mod_right]
        have hdiv : rem / C = (rem - C) / C + 1 := by
          conv_lhs => rw [← hsub]
          rw [Nat.add_div_right _ hC]
        have hcount : partCount C rem = partCount C (rem - C) + 1 := by
          unfold partCount
          rw [hmod, hdiv]
          split <;> omega
        rw [hcount, List.range_succ_eq_map, List.map_cons, List.map_map]
        congr 1
        · have hhead : partSize C rem 0 = C := by
            simp [partSize, Nat.min_eq_left hlarge]
          simp [hhead]
        · apply List.map_congr_left
          intro i _
          simp only [Function.comp_apply, Prod.mk.injEq]
          refine ⟨by congr 1; omega, ?_⟩
          unfold partSize
          congr 1
          rw [Nat.succ_mul, Nat.sub_add_eq, Nat.sub_right_comm]

theorem splitFile_closed (b : String) (S C : Nat) (hC : 0 < C) :
    splitFile b S C =
      (List.range (partCount C S)).map (fun i => (chunkName b (1 + i), partSize C S i)) :=
  splitGo_closed b C hC (S + 1) S 1 (Nat.lt_succ_self S)

theorem partCount_pos (C S : Nat) (hC : 0 < C) (hS : C < S) : 0 < partCount C S := by
  unfold partCount
  have h1 : 1 ≤ S / C := (Nat.one_le_div_iff hC).mpr (Nat.le_of_lt hS)
  split <;> omega

theorem mul_lt_of_lt_partCount (C S i : Nat) (hC : 0 < C) (hi : i < partCount C S) :
    i * C < S := by
  have hdm : S / C * C + S % C = S := Nat.div_add_mod' S C
  unfold partCount at hi
  by_cases h0 : S % C = 0
  · rw [if_pos h0] at hi
    have := (Nat.mul_lt_mul_right hC).mpr hi
    omega
  · rw [if_neg h0] at hi
    have hle : i ≤ S / C := by omega
    have := Nat.mul_le_mul_right C hle
    omega

theorem mul_le_of_succ_lt_partCount (C S i : Nat) (hC : 0 < C) (hi : i + 1 < partCount C S) :
    (i + 1) * C ≤ S := by
  have hdm : S / C * C + S % C = S := Nat.div_add_mod' S C
  unfold partCount at hi
  by_cases h0 : S % C = 0
  · rw [if_pos h0] at hi
    have := (Nat.mul_lt_mul_right hC).mpr hi
    omega
  · rw [if_neg h0] at hi
    have hle : i + 1 ≤ S / C := by omega
    have := Nat.mul_le_mul_right C hle
    omega

/-- C4: for `C > 0` and `S > C`, `splitFile` produces `ceil(S/C)` parts
(`S/C` when `C` divides `S`), all of size `C` except a final positive part
of size at most `C`, and never a zero-byte part. -/
theorem splitFile_shape (b : String) (S C : Nat) (hC : 0 < C) (hS : C < S) :
    SplitShapeClaim b S C := by
  have hcl := splitFile_closed b S C hC
  have hlen : (splitFile b S C).length = partCount C S := by
    rw [hcl, List.length_map, List.length_range]
  have hget : ∀ i, i < partCount C S →
      (splitFile b S C)[i]? = some (chunkName b (1 + i), partSize C S i) := by
    intro i hi
    rw [hcl, List.getElem?_map, List.getElem?_range hi]
    rfl
  have hpos : ∀ i, i < partCount C S → 0 < partSize C S i := by
    intro i hi
    have hlt : i * C < S := mul_lt_of_lt_partCount C S i hC hi
    unfold partSize
    omega
  refine ⟨by rw [hlen]; rfl, ?_, ?_, ?_⟩
  · intro i x hx hi
    rw [hlen] at hi
    have hi' : i < partCount C S := by omega
    rw [hget i hi'] at hx
    rcases Option.some.inj hx with rfl
    have hfull : (i + 1) * C ≤ S := mul_le_of_succ_lt_partCount C S i hC hi
    show partSize C S i = C
    unfold partSize
    have : i * C + C = (i + 1) * C := (Nat.succ_mul i C).symm
    omega
  · intro x hx
    have hcount := partCount_pos C S hC hS
    have hlast : (splitFile b S C).getLast? = (splitFile b S C)[(splitFile b S C).length - 1]? := by
      rw [List.getLast?_eq_getElem?]
    rw [hlast, hlen] at hx
    have hi : partCount C S - 1 < partCount C S := by omega
    rw [hget _ hi] at hx
    rcases Option.some.inj hx with rfl
    exact ⟨hpos _ hi, Nat.min_le_left _ _⟩
  · intro x hx
    rw [hcl] at hx
    rcases List.mem_map.mp hx with ⟨i, hi, hfi⟩
    have hi' := List.mem_range.mp hi
    have := hpos i hi'
    rw [← hfi]
    show partSize C S i ≠ 0
    omega

/-- C4 witness: a 5-byte archive split at 2 bytes. -/
theorem splitFile_shape_witness : SplitShapeClaim "a.tar" 5 2 :=
  splitFile_shape "a.tar" 5 2 (by decide) (by decide)

/-! ### Part naming (claim C2) -/

theorem pad3_length (n : Nat) : 3 ≤ (pad3 n).length := by
  unfold pad3
  rw [List.length_append, List.length_replicate]
  omega

/-- C2 counterexample: the coordinator strips the final extension (`.gz`)
from `<folderName>_<timestamp>.tar.gz` before appending `.partNNN`, so the
first part of a split archive is named `<...>.tar.part001`, not the
claimed `<...>.tar.gz.part001`. -/
theorem uploadPlan_part_name_cex :
    (uploadPlan "f_2025-01-01T00:00:00Z.tar.gz" 3 2)[0]? =
      some "f_2025-01-01T00:00:00Z.tar.part001" ∧
    "f_2025-01-01T00:00:00Z.tar.part001" ≠ "f_2025-01-01T00:00:00Z.tar.gz.part001" := by
  decide

/-- C2 (amended): when the coordinator partitions (split size `C > 0`,
archive size `S > C`), the part at 0-based index `i` is named
`<base>.partNNN` where `<base>` is the logical archive name with its final
`filepath.Ext` extension stripped (`<folderName>_<timestamp>.tar` for an
archive `<folderName>_<timestamp>.tar.gz`) and `NNN` is the 1-based number
`i + 1` zero-padded to width at least 3. -/
theorem uploadPlan_part_names (fileName : String) (S C : Nat) (hC : 0 < C) (hS : C < S) :
    ∀ i x, (uploadPlan fileName S C)[i]? = some x →
      x = (⟨trimSuffix fileName.data (goExt fileName.data)⟩ : String) ++ ".part" ++ ⟨pad3 (i + 1)⟩ ∧
      3 ≤ (pad3 (i + 1)).length := by
  intro i x hx
  unfold uploadPlan at hx
  rw [if_pos ⟨hC, hS⟩] at hx
  rw [splitFile_closed _ S C hC, List.map_map, List.getElem?_map] at hx
  cases hr : (List.range (partCount C S))[i]? with
  | none => rw [hr] at hx; exact absurd hx (by simp)
  | some j =>
      rw [hr] at hx
      have hj : j = i := by
        rcases List.getElem?_eq_some_iff.mp hr with ⟨hlt, hval⟩
        rw [List.getElem_range] at hval
        exact hval.symm
      subst hj
      have hx' : chunkName (⟨trimSuffix fileName.data (goExt fileName.data)⟩ : String) (1 + j) = x := by
        simpa using hx
      refine ⟨?_, pad3_length (j + 1)⟩
      rw [← hx']
      show chunkName _ (1 + j) = _
      unfold chunkName
      rw [Nat.add_comm 1 j]

/-- C2 amended-claim witness: the first part of a 3-byte
`f_2025-01-01T00:00:00Z.tar.gz` split at 2 bytes. -/
theorem uploadPlan_part_names_witness :
    "f_2025-01-01T00:00:00Z.tar.part001" =
      (⟨trimSuffix "f_2025-01-01T00:00:00Z.tar.gz".data
          (goExt "f_2025-01-01T00:00:00Z.tar.gz".data)⟩ : String) ++ ".part" ++ ⟨pad3 1⟩ ∧
    3 ≤ (pad3 1).length :=
  uploadPlan_part_names "f_2025-01-01T00:00:00Z.tar.gz" 3 2 (by decide) (by decide) 0
    "f_2025-01-01T00:00:00Z.tar.part001" (by decide)

theorem uploadLoop_ok (oracle : Nat → Except String String) :
    ∀ (names : List String) (i : Nat) (ids : List String),
      (uploadLoop oracle names i).2 = .ok ids →
      ids = createdIds (uploadLoop oracle names i).1 ∧ ids.length = names.length := by
  intro names
  induction names with
  | nil =>
      intro i ids h
      simp only [uploadLoop] at h ⊢
      cases h
      simp [createdIds]
  | cons name rest ih =>
      intro i ids h
      cases horacle : oracle i with
      | error e =>
          simp only [uploadLoop, horacle] at h
          cases h
      | ok id =>
          simp only [uploadLoop, horacle] at h ⊢
          cases hr : (uploadLoop oracle rest (i + 1)).2 with
          | error u => rw [hr] at h; cases h
          | ok ids' =>
              rw [hr] at h
              simp only [Except.map, Except.ok.injEq] at h
              rcases ih (i + 1) ids' hr with ⟨h1, h2⟩
              subst h
              constructor
              · simp [createdIds, DriveOp.created?, h1]
              · simp [h2]

/-- C1 (amended): a successful `uploadToDrive` issued a create call for
every planned part, collected all the returned identifiers in upload order
(`createdIds` of the trace), and returned exactly the FIRST of them —
not the full list. -/
theorem uploadToDrive_returns_first_id (oracle : Nat → Except String String)
    (fileName : String) (S C : Nat) (r : String)
    (h : (uploadToDrive oracle fileName S C).2 = .ok r) :
    (createdIds (uploadToDrive oracle fileName S C).1).length =
      (uploadPlan fileName S C).length ∧
    (createdIds (uploadToDrive oracle fileName S C).1).head? = some r := by
  simp only [uploadToDrive] at h ⊢
  cases hr : (uploadLoop oracle (uploadPlan fileName S C) 0).2 with
  | error u => rw [hr] at h; cases h
  | ok ids =>
      rw [hr] at h
      rcases uploadLoop_ok oracle (uploadPlan fileName S C) 0 ids hr with ⟨h1, h2⟩
      cases ids with
      | nil => simp [Except.bind] at h
      | cons id0 tl =>
          simp only [Except.bind, Except.ok.injEq] at h
          subst h
          refine ⟨by rw [← h1]; exact h2, ?_⟩
          rw [← h1]
          rfl

/-- C1 amended-claim witness: two parts, identifiers id0 and id1 created,
id0 returned. -/
theorem uploadToDrive_returns_first_id_witness :
    (createdIds (uploadToDrive (fun i => .ok (if i == 0 then "id0" else "id1"))
        "f_x.tar.gz" 3 2).1).length =
      (uploadPlan "f_x.tar.gz" 3 2).length ∧
    (createdIds (uploadToDrive (fun i => .ok (if i == 0 then "id0" else "id1"))
        "f_x.tar.gz" 3 2).1).head? = some "id0" :=
  uploadToDrive_returns_first_id (fun i => .ok (if i == 0 then "id0" else "id1"))
    "f_x.tar.gz" 3 2 "id0" (by decide)

/-- C1 counterexample: a successful two-part upload whose create calls
returned the ordered identifiers [id0, id1], while the coordinator's
return value carries only [id0] — not the full ordered list. -/
theorem uploadToDrive_full_list_cex :
    returnedIds (uploadToDrive (fun i => .ok (if i == 0 then "id0" else "id1"))
        "f_x.tar.gz" 3 2).2 = ["id0"] ∧
    createdIds (uploadToDrive (fun i => .ok (if i == 0 then "id0" else "id1"))
        "f_x.tar.gz" 3 2).1 = ["id0", "id1"] ∧
    (["id0"] : List String) ≠ ["id0", "id1"] := by decide

theorem uploadLoop_fail (oracle : Nat → Except String String) :
    ∀ (names : List String) (i k : Nat) (e : String) (hk : k < names.length),
      (∀ j, j < k → ∃ id, oracle (i + j) = .ok id) →
      oracle (i + k) = .error e →
      (uploadLoop oracle names i).2 = .error ⟨names.get ⟨k, hk⟩, e⟩ ∧
      (uploadLoop oracle names i).1.filterMap DriveOp.name? = names.take (k + 1) ∧
      ∀ op ∈ (uploadLoop oracle names i).1, op.isDelete = false := by
  intro names
  induction names with
  | nil => intro i k e hk; simp at hk
  | cons name rest ih =>
      intro i k e hk hok herr
      cases k with
      | zero =>
          rw [Nat.add_zero] at herr
          simp [uploadLoop, herr, DriveOp.name?, DriveOp.isDelete, List.get]
      | succ k =>
          rcases hok 0 (Nat.succ_pos k) with ⟨id, hid⟩
          rw [Nat.add_zero] at hid
          have hk' : k < rest.length := Nat.lt_of_succ_lt_succ hk
          have hok' : ∀ j, j < k → ∃ id, oracle (i + 1 + j) = .ok id := by
            intro j hj
            have := hok (j + 1) (Nat.succ_lt_succ hj)
            rwa [show i + (j + 1) = i + 1 + j by omega] at this
          have herr' : oracle (i + 1 + k) = .error e := by
            rwa [show i + (k + 1) = i + 1 + k by omega] at herr
          rcases ih (i + 1) k e hk' hok' herr' with ⟨h1, h2, h3⟩
          refine ⟨?_, ?_, ?_⟩
          · simp only [uploadLoop, hid]
            rw [h1]
            rfl
          · simp only [uploadLoop, hid, List.filterMap_cons, DriveOp.name?]
            rw [h2]
            rfl
          · intro op hop
            simp only [uploadLoop, hid, List.mem_cons] at hop
            rcases hop with rfl | hop
            · rfl
            · exact h3 op hop

/-- C7: when the create call for the part of 0-based index `k` fails with
`e` (all earlier calls having succeeded), the coordinator returns the
`UploadError` carrying that part's name, the trace's create calls are
exactly the first `k + 1` planned parts (no later part is attempted), and
the coordinator issues no delete of the already uploaded parts. -/
theorem uploadToDrive_fail_stops (oracle : Nat → Except String String)
    (fileName : String) (S C k : Nat) (e : String)
    (hk : k < (uploadPlan fileName S C).length)
    (hok : ∀ j, j < k → ∃ id, oracle j = .ok id)
    (herr : oracle k = .error e) :
    (uploadToDrive oracle fileName S C).2 =
      .error ⟨(uploadPlan fileName S C).get ⟨k, hk⟩, e⟩ ∧
    (uploadToDrive oracle fileName S C).1.filterMap DriveOp.name? =
      (uploadPlan fileName S C).take (k + 1) ∧
    ∀ op ∈ (uploadToDrive oracle fileName S C).1, op.isDelete = false := by
  have hok0 : ∀ j, j < k → ∃ id, oracle (0 + j) = .ok id := by
    intro j hj
    rw [Nat.zero_add]
    exact hok j hj
  have herr0 : oracle (0 + k) = .error e := by rwa [Nat.zero_add]
  rcases uploadLoop_fail oracle (uploadPlan fileName S C) 0 k e hk hok0 herr0 with ⟨h1, h2, h3⟩
  refine ⟨?_, ?_, ?_⟩
  · show ((uploadLoop oracle (uploadPlan fileName S C) 0).2.bind _) = _
    rw [h1]
    rfl
  · exact h2
  · exact h3

/-- C7 witness: part 2 of a two-part upload fails with "quota"; the trace
holds exactly the two create attempts and the error names
`f_x.tar.part002`. -/
theorem uploadToDrive_fail_stops_witness :
    (uploadToDrive (fun i => if i == 0 then .ok "id0" else .error "quota") "f_x.tar.gz" 3 2).2 =
      .error ⟨(uploadPlan "f_x.tar.gz" 3 2).get ⟨1, by decide⟩, "quota"⟩ ∧
    (uploadToDrive (fun i => if i == 0 then .ok "id0" else .error "quota")
        "f_x.tar.gz" 3 2).1.filterMap DriveOp.name? = (uploadPlan "f_x.tar.gz" 3 2).take 2 :=
  have h := uploadToDrive_fail_stops (fun i => if i == 0 then .ok "id0" else .error "quota")
    "f_x.tar.gz" 3 2 1 "quota" (by decide)
    (fun j hj => ⟨"id0", by have hj0 : j = 0 := by omega
                            subst hj0; rfl⟩) (by decide)
  ⟨h.1, h.2.1⟩

/-! ### The sweeper's choice of group creation time (claim C3) -/

theorem strLtChars_irrefl : ∀ a, strLtChars a a = false := by
  intro a
  induction a with
  | nil => rfl
  | cons c cs ih => simp [strLtChars, ih]

theorem strLtChars_trans : ∀ a b c, strLtChars a b = true → strLtChars b c = true →
    strLtChars a c = true := by
  intro a
  induction a with
  | nil =>
      intro b c hab hbc
      cases b with
      | nil => exact absurd hab (by simp [strLtChars])
      | cons y ys =>
          cases c with
          | nil => exact absurd hbc (by simp [strLtChars])
          | cons z zs => simp [strLtChars]
  | cons x xs ih =>
      intro b c hab hbc
      cases b with
      | nil => exact absurd hab (by simp [strLtChars])
      | cons y ys =>
          cases c with
          | nil => exact absurd hbc (by simp [strLtChars])
          | cons z zs =>
              simp only [strLtChars] at hab hbc ⊢
              split_ifs at hab hbc ⊢ <;>
                first
                  | rfl
                  | omega
                  | exact ih ys zs hab hbc

theorem strLt_irrefl (a : String) : strLt a a = false :=
  strLtChars_irrefl a.data

theorem strLt_trans (a b c : String) (hab : strLt a b = true) (hbc : strLt b c = true) :
    strLt a c = true :=
  strLtChars_trans a.data b.data c.data hab hbc

theorem foldl_earliest (l : List DriveFile) :
    ∀ acc : DriveFile,
      (l.foldl earliestStep acc = acc ∨ l.foldl earliestStep acc ∈ l) ∧
      (∀ f ∈ l, strLt f.created (l.foldl earliestStep acc).created = false) ∧
      (strLt (l.foldl earliestStep acc).created acc.created = true ∨
        l.foldl earliestStep acc = acc) := by
  induction l with
  | nil => intro acc; exact ⟨Or.inl rfl, by simp, Or.inr rfl⟩
  | cons f0 l' ih =>
      intro acc
      by_cases hs : strLt f0.created acc.created = true
      · have hstep : earliestStep acc f0 = f0 := by simp [earliestStep, hs]
        rw [List.foldl_cons, hstep]
        rcases ih f0 with ⟨hmem, hmin, hacc⟩
        refine ⟨?_, ?_, ?_⟩
        · rcases hmem with h | h
          · rw [h]
            exact Or.inr (List.mem_cons_self f0 l')
          · exact Or.inr (List.mem_cons_of_mem f0 h)
        · intro f hf
          rcases List.mem_cons.mp hf with rfl | hf'
          · rcases hacc with hR | hR
            · by_contra hcon
              rw [Bool.not_eq_false] at hcon
              have := strLt_trans _ _ _ hcon hR
              rw [strLt_irrefl] at this
              cases this
            · rw [hR, strLt_irrefl]
          · exact hmin f hf'
        · rcases hacc with hR | hR
          · exact Or.inl (strLt_trans _ _ _ hR hs)
          · rw [hR]
            exact Or.inl hs
      · have hstep : earliestStep acc f0 = acc := by
          simp only [earliestStep]
          rw [if_neg (by simpa using hs)]
        rw [List.foldl_cons, hstep]
        rcases ih acc with ⟨hmem, hmin, hacc⟩
        refine ⟨?_, ?_, ?_⟩
        · rcases hmem with h | h
          · exact Or.inl h
          · exact Or.inr (List.mem_cons_of_mem f0 h)
        · intro f hf
          rcases List.mem_cons.mp hf with rfl | hf'
          · rcases hacc with hR | hR
            · by_contra hcon
              rw [Bool.not_eq_false] at hcon
              have := strLt_trans _ _ _ hcon hR
              rw [Bool.not_eq_true] at hs
              rw [hs] at this
              cases this
            · rw [hR]
              simpa using hs
          · exact hmin f hf'
        · exact hacc

/-- C3 counterexample: the sweeper's group creation time is the parse of
the lexicographically smallest timestamp STRING (05:00Z), not the minimum
parsed instant (10:00+09:00 = 01:00Z), so the two differ on this group. -/
theorem groupTime_not_min_instant_cex :
    groupTime [fileLexA, fileLexB] = parseRFC3339 "2025-01-01T05:00:00Z" ∧
    claimEarliestInstant [fileLexA, fileLexB] = parseRFC3339 "2025-01-01T10:00:00+09:00" ∧
    groupTime [fileLexA, fileLexB] ≠ claimEarliestInstant [fileLexA, fileLexB] := by
  decide

/-- C3 (amended): the creation time the sweeper uses for a nonempty group
is the RFC3339 parse of the lexicographically smallest created STRING of
the group (a member's string minimal under Go's string order) — which
coincides with the earliest instant only when the timestamps' formats make
string order agree with instant order, and differs when offsets mix. -/
theorem groupTime_is_lex_min (first : DriveFile) (rest : List DriveFile) :
    groupTime (first :: rest) = parseRFC3339 (pickEarliest first rest).created ∧
    pickEarliest first rest ∈ first :: rest ∧
    ∀ f ∈ first :: rest, strLt f.created (pickEarliest first rest).created = false := by
  rcases foldl_earliest (first :: rest) first with ⟨hmem, hmin, _⟩
  refine ⟨rfl, ?_, hmin⟩
  rcases hmem with h | h
  · show (first :: rest).foldl earliestStep first ∈ first :: rest
    rw [h]
    exact List.mem_cons_self first rest
  · exact h

/-- C3 amended-claim witness: on the two-member mixed-offset group, the
scan winner is a member and no member's string is smaller. -/
theorem groupTime_is_lex_min_witness :
    pickEarliest fileLexA [fileLexB] ∈ fileLexA :: [fileLexB] ∧
    strLt fileLexB.created (pickEarliest fileLexA [fileLexB]).created = false :=
  ⟨(groupTime_is_lex_min fileLexA [fileLexB]).2.1,
   (groupTime_is_lex_min fileLexA [fileLexB]).2.2 fileLexB (by decide)⟩

/-! ### The retention decision (claim C5) -/

/-- C5: when the sweeper determined a group's creation time `t`, it
attempts to delete all the group's members iff `retentionDays = 0` or `t`
is strictly before `now` minus `retentionDays` days, and attempts none of
them otherwise. -/
theorem groupAttempts_decision (now : Int) (rd : Nat) (g : List DriveFile) (t : Int)
    (ht : groupTime g = some t) :
    (groupAttempts now rd g = g ↔ (rd = 0 ∨ t < now - rd * nanosPerDay)) ∧
    (¬(rd = 0 ∨ t < now - rd * nanosPerDay) → groupAttempts now rd g = []) := by
  have hg : g ≠ [] := by
    intro h
    rw [h] at ht
    simp [groupTime] at ht
  have hdec : groupDecision now rd g = (rd == 0 || decide (t < now - rd * nanosPerDay)) := by
    simp only [groupDecision, ht]
    rfl
  unfold groupAttempts
  rw [hdec]
  by_cases hcond : rd = 0 ∨ t < now - rd * nanosPerDay
  · have hb : (rd == 0 || decide (t < now - rd * nanosPerDay)) = true := by
      rcases hcond with h | h <;> simp [h]
    rw [hb]
    simp [hcond]
  · have h1 : ¬ rd = 0 := fun h => hcond (Or.inl h)
    have h2 : ¬ t < now - rd * nanosPerDay := fun h => hcond (Or.inr h)
    have hb : (rd == 0 || decide (t < now - rd * nanosPerDay)) = false := by
      simp [h1, h2]
    rw [hb]
    rw [if_neg (by simp)]
    constructor
    · constructor
      · intro h
        exact absurd h.symm hg
      · intro h
        exact absurd h hcond
    · intro _
      rfl

/-- C5 witness (the claim's own instances): with a 30-day window, a group
whose earliest member is 31 days old is deleted, one 29 days old is
retained. -/
theorem groupAttempts_decision_witness :
    (groupAttempts (1735689600000000000 + 31 * nanosPerDay) 30
        [⟨"i1", "f_a.tar.gz", "2025-01-01T00:00:00Z"⟩] =
      [⟨"i1", "f_a.tar.gz", "2025-01-01T00:00:00Z"⟩]) ∧
    (groupAttempts (1735689600000000000 + 29 * nanosPerDay) 30
        [⟨"i1", "f_a.tar.gz", "2025-01-01T00:00:00Z"⟩] = []) :=
  ⟨((groupAttempts_decision (1735689600000000000 + 31 * nanosPerDay) 30
        [⟨"i1", "f_a.tar.gz", "2025-01-01T00:00:00Z"⟩] 1735689600000000000
        (by decide)).1).mpr (Or.inr (by decide)),
   (groupAttempts_decision (1735689600000000000 + 29 * nanosPerDay) 30
        [⟨"i1", "f_a.tar.gz", "2025-01-01T00:00:00Z"⟩] 1735689600000000000
        (by decide)).2 (by decide)⟩

/-! ### Grouping (claim C6) -/

/-- C6: the two part names and the unsplit archive name all map to the
group key `f_2025-01-01T00:00:00Z`, and the unsplit archive alone forms a
group with itself as sole member. -/
theorem groupKey_examples :
    groupKey "f_2025-01-01T00:00:00Z.tar.gz.part001" = "f_2025-01-01T00:00:00Z" ∧
    groupKey "f_2025-01-01T00:00:00Z.tar.gz.part002" = "f_2025-01-01T00:00:00Z" ∧
    groupKey "f_2025-01-01T00:00:00Z.tar.gz" = "f_2025-01-01T00:00:00Z" ∧
    membersOf [⟨"id1", "f_2025-01-01T00:00:00Z.tar.gz", "2025-01-01T00:00:00Z"⟩]
        "f_2025-01-01T00:00:00Z" =
      [⟨"id1", "f_2025-01-01T00:00:00Z.tar.gz", "2025-01-01T00:00:00Z"⟩] := by
  decide

/-- C8: over a successful listing the sweep always returns ok (member
delete failures are only logged); which deletions are attempted, and in
which order, is the same under any delete outcomes (one failure prevents
none of the following attempts); and every member of every group decided
old is attempted. -/
theorem cleanup_deletes_independent (now : Int) (rd : Nat) (files : List DriveFile)
    (o1 o2 : String → Bool) :
    (cleanupOldBackups (.ok files) now rd o1).1 = .ok () ∧
    (cleanupOldBackups (.ok files) now rd o1).2.map DriveOp.deleteId? =
      (cleanupOldBackups (.ok files) now rd o2).2.map DriveOp.deleteId? ∧
    ∀ p ∈ groupKeys files, groupDecision now rd (membersOf files p) = true →
      ∀ f ∈ membersOf files p,
        DriveOp.deleteOp f.id (o1 f.id) ∈ (cleanupOldBackups (.ok files) now rd o1).2 := by
  refine ⟨rfl, ?_, ?_⟩
  · show ((cleanupAttempts now rd files).map
        (fun f => DriveOp.deleteOp f.id (o1 f.id))).map DriveOp.deleteId? =
      ((cleanupAttempts now rd files).map
        (fun f => DriveOp.deleteOp f.id (o2 f.id))).map DriveOp.deleteId?
    rw [List.map_map, List.map_map]
    rfl
  · intro p hp hdec f hf
    have hmem : f ∈ cleanupAttempts now rd files := by
      refine List.mem_flatMap.mpr ⟨p, hp, ?_⟩
      rw [groupAttempts, hdec]
      simpa using hf
    exact List.mem_map_of_mem (fun f => DriveOp.deleteOp f.id (o1 f.id)) hmem

/-- C8 witness: one stale group, all deletes failing; the sweep still
returns ok. -/
theorem cleanup_deletes_independent_witness :
    (cleanupOldBackups (.ok [⟨"i1", "f_a.tar.gz", "2025-01-01T00:00:00Z"⟩]) 1735689600000000000 0
      (fun _ => false)).1 = .ok () :=
  (cleanup_deletes_independent 1735689600000000000 0
    [⟨"i1", "f_a.tar.gz", "2025-01-01T00:00:00Z"⟩] (fun _ => false) (fun _ => false)).1

/-! ### Groups with unparsable timestamps (claim C10) -/

/-- C10: a group whose earliest member timestamp does not parse is skipped
whole — none of its members is attempted, whatever `retentionDays`
(including 0) — while every other group's attempts still take place and
the sweep still returns ok rather than an error. -/
theorem cleanup_skips_unparsable_group (now : Int) (rd : Nat) (files : List DriveFile)
    (p : String) (hp : p ∈ groupKeys files)
    (ht : groupTime (membersOf files p) = none) :
    (∀ f ∈ membersOf files p, f ∉ cleanupAttempts now rd files) ∧
    (∀ q ∈ groupKeys files, ∀ f ∈ groupAttempts now rd (membersOf files q),
        f ∈ cleanupAttempts now rd files) ∧
    ∀ delOk, (cleanupOldBackups (.ok files) now rd delOk).1 = .ok () := by
  have hdecp : groupDecision now rd (membersOf files p) = false := by
    unfold groupDecision
    rw [ht]
  refine ⟨?_, ?_, fun _ => rfl⟩
  · intro f hf hmem
    rcases List.mem_flatMap.mp hmem with ⟨q, hq, hfq⟩
    rw [groupAttempts] at hfq
    by_cases hdec : groupDecision now rd (membersOf files q) = true
    · rw [hdec] at hfq
      simp only [if_pos] at hfq
      have hkeyq : groupKey f.name = q := by
        have := List.mem_filter.mp hfq
        simpa using this.2
      have hkeyp : groupKey f.name = p := by
        have := List.mem_filter.mp hf
        simpa using this.2
      have : q = p := by rw [← hkeyq, hkeyp]
      subst this
      rw [hdecp] at hdec
      cases hdec
    · rw [Bool.not_eq_true] at hdec
      rw [hdec] at hfq
      simp at hfq
  · intro q hq f hf
    exact List.mem_flatMap.mpr ⟨q, hq, hf⟩

/-- C10 witness: a group with an unparsable timestamp is skipped even at
`retentionDays = 0` while the other, parsable group is deleted. -/
theorem cleanup_skips_unparsable_group_witness :
    (⟨"i1", "f_a.tar.gz", "bogus"⟩ : DriveFile) ∉
      cleanupAttempts 0 0
        [⟨"i1", "f_a.tar.gz", "bogus"⟩, ⟨"i2", "g_b.tar.gz", "1970-01-05T00:00:00Z"⟩] :=
  (cleanup_skips_unparsable_group 0 0
      [⟨"i1", "f_a.tar.gz", "bogus"⟩, ⟨"i2", "g_b.tar.gz", "1970-01-05T00:00:00Z"⟩]
      "f_a" (by decide) (by decide)).1
    ⟨"i1", "f_a.tar.gz", "bogus"⟩ (by decide)

theorem asciiToLower_digit (c : Char) (h : isDigitChar c = true) : asciiToLower c = c := by
  simp only [isDigitChar, Bool.and_eq_true, decide_eq_true_eq] at h
  unfold asciiToLower
  rw [if_neg]
  simp only [Bool.and_eq_true, decide_eq_true_eq, not_and, not_le]
  intro h65
  omega

theorem digit_not_space (c : Char) (h : isDigitChar c = true) : isSpaceChar c = false := by
  simp only [isDigitChar, Bool.and_eq_true, decide_eq_true_eq] at h
  by_contra hcon
  rw [Bool.not_eq_false] at hcon
  simp only [isSpaceChar, Bool.or_eq_true, beq_iff_eq] at hcon
  omega

theorem space_not_digit (c : Char) (h : isRegexSpace c = true) : isDigitChar c = false := by
  simp only [isRegexSpace, Bool.or_eq_true, beq_iff_eq] at h
  by_contra hcon
  rw [Bool.not_eq_false] at hcon
  simp only [isDigitChar, Bool.and_eq_true, decide_eq_true_eq] at hcon
  omega

theorem lowerStr_num (num : List Char) (h : ∀ c ∈ num, isDigitChar c = true ∨ c = '.') :
    lowerStr num = num := by
  induction num with
  | nil => rfl
  | cons c cs ih =>
      unfold lowerStr
      rw [List.map_cons]
      have hc : asciiToLower c = c := by
        rcases h c (by simp) with hd | hd
        · exact asciiToLower_digit c hd
        · subst hd; decide
      rw [hc]
      have := ih (fun c hc => h c (List.mem_cons_of_mem _ hc))
      unfold lowerStr at this
      rw [this]

theorem unit_cases (u : List Char) (mult : Nat) (h : unitMult u = some mult) :
    u = ['b'] ∨ u = ['k', 'b'] ∨ u = ['m', 'b'] ∨ u = ['g', 'b'] ∨ u = ['t', 'b'] := by
  unfold unitMult at h
  split at h <;> simp_all

/-- The facts about a matched unit string the invariance proof needs. -/
theorem unit_facts (u : List Char) (mult : Nat) (h : unitMult u = some mult) :
    u ≠ [] ∧ lowerStr u = u ∧ u.getLast? = some 'b' ∧
    (∀ c, u.head? = some c → isDigitChar c = false) ∧
    (∀ c, u.head? = some c → isRegexSpace c = false) ∧
    u.head? ≠ some '.' := by
  rcases unit_cases u mult h with h1 | h1 | h1 | h1 | h1 <;>
    subst h1 <;>
    refine ⟨by decide, by decide, by decide, ?_, ?_, by decide⟩ <;>
    (intro c hc; simp only [List.head?_cons, Option.some.injEq] at hc; subst hc; decide)

theorem trimSpace_eq_self (s : List Char)
    (h1 : ∀ c, s.head? = some c → isSpaceChar c = false)
    (h2 : ∀ c, s.getLast? = some c → isSpaceChar c = false) :
    trimSpace s = s := by
  unfold trimSpace
  cases hs : s with
  | nil => rfl
  | cons a t =>
      have ha : isSpaceChar a = false := h1 a (by rw [hs]; rfl)
      have hd0 : List.dropWhile isSpaceChar (a :: t) = a :: t := by
        rw [List.dropWhile_cons, ha]
        simp
      rw [hd0]
      cases hrev : (a :: t).reverse with
      | nil => exact absurd hrev (by simp)
      | cons b r =>
          have hb : isSpaceChar b = false := by
            refine h2 b ?_
            rw [hs, ← List.head?_reverse, hrev]
            rfl
          have hd1 : List.dropWhile isSpaceChar (b :: r) = b :: r := by
            rw [List.dropWhile_cons, hb]
            simp
          rw [hd1, ← hrev, List.reverse_reverse]

theorem takeWhile_digits_append (ds r : List Char) (hds : ∀ c ∈ ds, isDigitChar c = true)
    (hr : ∀ c, r.head? = some c → isDigitChar c = false) :
    (ds ++ r).takeWhile isDigitChar = ds := by
  induction ds with
  | nil =>
      cases r with
      | nil => rfl
      | cons c r' =>
          rw [List.nil_append, List.takeWhile_cons, hr c rfl]
          rw [if_neg (by simp)]
  | cons d ds' ih =>
      have hd : isDigitChar d = true := hds d (by simp)
      rw [List.cons_append, List.takeWhile_cons, hd]
      rw [if_pos rfl, ih (fun c hc => hds c (List.mem_cons_of_mem _ hc))]

theorem dropWhile_spaces_append (sp r : List Char) (hsp : ∀ c ∈ sp, isRegexSpace c = true)
    (hr : ∀ c, r.head? = some c → isRegexSpace c = false) :
    (sp ++ r).dropWhile isRegexSpace = r := by
  induction sp with
  | nil =>
      cases r with
      | nil => rfl
      | cons c r' =>
          rw [List.nil_append, List.dropWhile_cons, hr c rfl]
          rw [if_neg (by simp)]
  | cons s sp' ih =>
      have hs : isRegexSpace s = true := hsp s (by simp)
      rw [List.cons_append, List.dropWhile_cons, hs]
      rw [if_pos rfl, ih (fun c hc => hsp c (List.mem_cons_of_mem _ hc))]

theorem matchSize_digits (ds r : List Char) (mult : Nat)
    (h1 : ds ≠ []) (h2 : ∀ c ∈ ds, isDigitChar c = true)
    (hrd : ∀ c, r.head? = some c → isDigitChar c = false)
    (hdot : r.head? ≠ some '.')
    (hval : unitMult (r.dropWhile isRegexSpace) = some mult) :
    matchSize (ds ++ r) = some (ds, [], mult) := by
  simp only [matchSize]
  rw [takeWhile_digits_append ds r h2 hrd, List.drop_left]
  rw [if_neg (by simp [h1]), if_neg hdot, hval]
  rfl

theorem matchSize_digits_frac (ds fs r : List Char) (mult : Nat)
    (h1 : ds ≠ []) (h2 : ∀ c ∈ ds, isDigitChar c = true)
    (h3 : fs ≠ []) (h4 : ∀ c ∈ fs, isDigitChar c = true)
    (hrd : ∀ c, r.head? = some c → isDigitChar c = false)
    (hval : unitMult (r.dropWhile isRegexSpace) = some mult) :
    matchSize (ds ++ '.' :: (fs ++ r)) = some (ds, fs, mult) := by
  have hr' : ∀ c, ('.' :: (fs ++ r)).head? = some c → isDigitChar c = false := by
    intro c hc
    simp only [List.head?_cons, Option.some.injEq] at hc
    subst hc
    decide
  simp only [matchSize]
  rw [takeWhile_digits_append ds ('.' :: (fs ++ r)) h2 hr', List.drop_left]
  rw [if_neg (by simp [h1])]
  simp only [List.head?_cons, List.tail_cons]
  rw [if_pos True.intro]
  rw [takeWhile_digits_append fs r h4 hrd, List.drop_left]
  rw [if_neg (by simp [h3]), hval]
  rfl

/-- C9: the byte count parsed from a valid size string `<number><unit>`
does not depend on the letter case of the unit (`v` is any string whose
lower-casing is the unit `u`), nor on a single space inserted between the
number and the unit; in particular "100MB", "100mb" and "100 mb" all parse
to 104857600 bytes. -/
theorem parseSizeString_case_space_invariant :
    (∀ (num u v : List Char) (mult : Nat), NumShape num → unitMult u = some mult →
        lowerStr v = u →
        parseSizeString ⟨num ++ v⟩ = parseSizeString ⟨num ++ u⟩ ∧
        parseSizeString ⟨num ++ ' ' :: v⟩ = parseSizeString ⟨num ++ u⟩) ∧
    parseSizeString "100MB" = some 104857600 ∧
    parseSizeString "100mb" = some 104857600 ∧
    parseSizeString "100 mb" = some 104857600 := by
  refine ⟨?_, by decide, by decide, by decide⟩
  intro num u v mult hnum hu hv
  obtain ⟨hune, hulower, hulast, hud, hus, hudot⟩ := unit_facts u mult hu
  have hnumd : ∀ c ∈ num, isDigitChar c = true ∨ c = '.' := by
    rcases hnum with ⟨h1, h2⟩ | ⟨ds, fs, h1, h2, h3, h4, rfl⟩
    · exact fun c hc => Or.inl (h2 c hc)
    · intro c hc
      rcases List.mem_append.mp hc with h | h
      · exact Or.inl (h2 c h)
      · rcases List.mem_cons.mp h with rfl | h
        · exact Or.inr rfl
        · exact Or.inl (h4 c h)
  have hlnum : lowerStr num = num := lowerStr_num num hnumd
  have hcons : ∃ d t, num = d :: t ∧ isDigitChar d = true := by
    rcases hnum with ⟨hne, h2⟩ | ⟨ds, fs, hne, h2, h3, h4, rfl⟩
    · cases num with
      | nil => exact absurd rfl hne
      | cons d t => exact ⟨d, t, rfl, h2 d (by simp)⟩
    · cases ds with
      | nil => exact absurd rfl hne
      | cons d t => exact ⟨d, t ++ '.' :: fs, by simp, h2 d (by simp)⟩
  have htrim : ∀ m : List Char, m.getLast? = some 'b' → trimSpace (num ++ m) = num ++ m := by
    intro m hm
    obtain ⟨d, t, hnume, hd⟩ := hcons
    apply trimSpace_eq_self
    · intro c hc
      rw [hnume] at hc
      simp only [List.cons_append, List.head?_cons, Option.some.injEq] at hc
      subst hc
      exact digit_not_space _ hd
    · intro c hc
      have hmne : m ≠ [] := by
        intro h
        rw [h] at hm
        simp at hm
      rw [List.getLast?_append_of_ne_nil num hmne, hm] at hc
      simp only [Option.some.injEq] at hc
      subst hc
      decide
  have hval0 : unitMult (u.dropWhile isRegexSpace) = some mult := by
    have hdw := dropWhile_spaces_append [] u (by simp) hus
    rw [List.nil_append] at hdw
    rw [hdw]
    exact hu
  have hmatch : ∀ sp : List Char, (∀ c ∈ sp, isRegexSpace c = true) →
      matchSize (num ++ (sp ++ u)) = matchSize (num ++ u) := by
    intro sp hsp
    have hrd : ∀ c, (sp ++ u).head? = some c → isDigitChar c = false := by
      cases sp with
      | nil => simpa using hud
      | cons s sp' =>
          intro c hc
          simp only [List.cons_append, List.head?_cons, Option.some.injEq] at hc
          subst hc
          exact space_not_digit _ (hsp s (by simp))
    have hdot : (sp ++ u).head? ≠ some '.' := by
      cases sp with
      | nil => simpa using hudot
      | cons s sp' =>
          simp only [List.cons_append, List.head?_cons]
          intro hc
          have hss := hsp s (by simp)
          rw [Option.some.inj hc] at hss
          exact absurd hss (by decide)
    have hval : unitMult ((sp ++ u).dropWhile isRegexSpace) = some mult := by
      rw [dropWhile_spaces_append sp u hsp hus]
      exact hu
    rcases hnum with ⟨h1, h2⟩ | ⟨ds, fs, h1, h2, h3, h4, rfl⟩
    · rw [matchSize_digits num (sp ++ u) mult h1 h2 hrd hdot hval]
      rw [matchSize_digits num u mult h1 h2 hud hudot hval0]
    · have e1 : (ds ++ '.' :: fs) ++ (sp ++ u) = ds ++ '.' :: (fs ++ (sp ++ u)) := by simp
      have e2 : (ds ++ '.' :: fs) ++ u = ds ++ '.' :: (fs ++ u) := by simp
      rw [e1, e2]
      rw [matchSize_digits_frac ds fs (sp ++ u) mult h1 h2 h3 h4 hrd hval]
      rw [matchSize_digits_frac ds fs u mult h1 h2 h3 h4 hud hval0]
  have hlowR : lowerStr (num ++ u) = num ++ u := by
    unfold lowerStr at hlnum hulower ⊢
    rw [List.map_append, hlnum, hulower]
  constructor
  · show sizeOfMatch (matchSize (trimSpace (lowerStr (num ++ v)))) =
      sizeOfMatch (matchSize (trimSpace (lowerStr (num ++ u))))
    have hlow1 : lowerStr (num ++ v) = num ++ u := by
      unfold lowerStr at hlnum hv ⊢
      rw [List.map_append, hlnum, hv]
    rw [hlow1, hlowR, htrim u hulast]
  · show sizeOfMatch (matchSize (trimSpace (lowerStr (num ++ ' ' :: v)))) =
      sizeOfMatch (matchSize (trimSpace (lowerStr (num ++ u))))
    have hlow2 : lowerStr (num ++ ' ' :: v) = num ++ ' ' :: u := by
      unfold lowerStr at hlnum hv ⊢
      rw [List.map_append, hlnum, List.map_cons, hv]
      rfl
    rw [hlow2, hlowR]
    have htrim2 : trimSpace (num ++ ([' '] ++ u)) = num ++ ([' '] ++ u) := by
      refine htrim ([' '] ++ u) ?_
      rw [List.getLast?_append_of_ne_nil [' '] hune]
      exact hulast
    simp only [List.singleton_append] at htrim2
    rw [htrim2, htrim u hulast]
    have hm1 := hmatch [' '] (by decide)
    simp only [List.singleton_append] at hm1
    rw [hm1]

/-- C9 witness: the theorem applied at number 100 and unit mb, with the
upper-case variant MB, with and without the interior space. -/
theorem parseSizeString_case_space_invariant_witness :
    parseSizeString ⟨['1', '0', '0'] ++ ['M', 'B']⟩ =
      parseSizeString ⟨['1', '0', '0'] ++ ['m', 'b']⟩ ∧
    parseSizeString ⟨['1', '0', '0'] ++ ' ' :: ['M', 'B']⟩ =
      parseSizeString ⟨['1', '0', '0'] ++ ['m', 'b']⟩ :=
  parseSizeString_case_space_invariant.1 ['1', '0', '0'] ['m', 'b'] ['M', 'B'] (1024 * 1024)
    (Or.inl ⟨by decide, by decide⟩) (by decide) (by decide)

end GDriveBackup

